import Mathlib

/-!
# Verification of the delatex LaTeX-sanitization core

A shallow embedding, in Lean 4, of the string-processing and tree-dispatch
algorithms of `src/latex/core.py` and `src/lib/helpers.py` of the delatex
repository, together with theorems settling the frozen claims about the
natural-language specification of that code.

Python machine integers are unbounded, so `Nat`/`Int` model them directly;
128-bit random draws are reduced modulo `2 ^ 128` exactly where the source
calls `random.getrandbits(128)`.  Python string operations (`str.replace`,
`re.sub` with the concrete patterns appearing in the source, `str.strip`,
`str.splitlines`) are implemented as executable functions over `List Char`.
Fallible operations (`int(s, 36)`) return `Option`.
-/

namespace Delatex

/-! ## Python string primitives -/

/-- Python `s.replace(pat, rep)` on character lists: leftmost, non-overlapping,
scanning resumes after each replacement.  Structural recursion on a fuel
argument; `pyReplaceS` supplies fuel `s.length + 1`, which is ample because
every step consumes at least one character of the remaining input. -/
def pyReplaceL (pat rep : List Char) : Nat → List Char → List Char
  | 0, l => l
  | _ + 1, [] => []
  | fuel + 1, c :: rest =>
    if pat.isPrefixOf (c :: rest) then rep ++ pyReplaceL pat rep fuel ((c :: rest).drop pat.length)
    else c :: pyReplaceL pat rep fuel rest

/-- Python `s.replace(pat, rep)` for strings.  The source never calls `replace`
with an empty pattern, which Python treats specially; that case is returned
unchanged here. -/
def pyReplaceS (s pat rep : String) : String :=
  if pat.isEmpty then s
  else ⟨pyReplaceL pat.data rep.data (s.length + 1) s.data⟩

/-- Python `pat in s` substring test on character lists. -/
def containsL (pat : List Char) : List Char → Bool
  | [] => decide (pat = [])
  | c :: rest => pat.isPrefixOf (c :: rest) || containsL pat rest

/-- Python `pat in s` substring test for strings. -/
def strContains (s pat : String) : Bool :=
  containsL pat.data s.data

/-! ## base36 encoding and decoding (`src/lib/helpers.py` lines 45-62) -/

/-- The digit alphabet `string.digits + string.ascii_uppercase`. -/
def base36chars : List Char := "0123456789ABCDEFGHIJKLMNOPQRSTUVWXYZ".data

/-- `chars[i]` of `base36_encode`; all call sites have `i < 36`. -/
def base36digit (i : Nat) : Char := base36chars.getD i '0'

/-- The digit-producing loop of `base36_encode`: Python's
`while not res or num > 0: num, i = divmod(num, 36); res = chars[i] + res`
runs at least once and otherwise until the quotient is zero.  Fuel makes the
recursion structural; `num + 1` always suffices since the quotient of a
division by 36 strictly decreases. -/
def base36go : Nat → Nat → List Char
  | 0, _ => []
  | fuel + 1, num =>
    if num < 36 then [base36digit num]
    else base36go fuel (num / 36) ++ [base36digit (num % 36)]

/-- `base36_encode` of `src/lib/helpers.py`: converts a non-negative integer
into a base36 string. -/
def base36_encode (num : Nat) : String :=
  ⟨base36go (num + 1) num⟩

/-- Digit value accepted by Python `int(s, 36)` (digits and both letter
cases). -/
def base36val (c : Char) : Option Nat :=
  if '0' ≤ c ∧ c ≤ '9' then some (c.toNat - '0'.toNat)
  else if 'A' ≤ c ∧ c ≤ 'Z' then some (c.toNat - 'A'.toNat + 10)
  else if 'a' ≤ c ∧ c ≤ 'z' then some (c.toNat - 'a'.toNat + 10)
  else none

/-- Digit accumulation of positional parsing. -/
def base36acc (l : List Char) : Nat :=
  l.foldl (fun acc c => acc * 36 + (base36val c).getD 0) 0

/-- `base36_decode` of `src/lib/helpers.py`, i.e. Python `int(s, 36)`:
an optional sign followed by at least one base36 digit; invalid input raises
`ValueError` in Python, modelled as `none`.  (Python's `int` additionally
tolerates surrounding whitespace and interior underscores; those inputs never
arise here and are not modelled.) -/
def base36_decode (s : String) : Option Int :=
  let l := s.data
  let sign : Int := if l.head? = some '-' then -1 else 1
  let ds := if l.head? = some '-' ∨ l.head? = some '+' then l.tail else l
  if ds = [] then none
  else if ds.all (fun c => (base36val c).isSome) then some (sign * (base36acc ds : Nat))
  else none

/-! ## The 128-bit identifier construction (`uuid.UUID(int=…, version=4)`) -/

/-- The constructor `uuid.UUID(int=n, version=4)` (and likewise the value of
`uuid.uuid4().int`): the RFC 4122 variant bits are forced to `10` and the
version nibble to `4`.  Bit clearing is `Nat.land` with the complement of the
mask inside 128 bits. -/
def uuid4OfInt (n : Nat) : Nat :=
  let n0 := n % 2 ^ 128
  let n1 := Nat.lor (Nat.land n0 (Nat.xor (2 ^ 128 - 1) (0xc000 <<< 48))) (0x8000 <<< 48)
  Nat.lor (Nat.land n1 (Nat.xor (2 ^ 128 - 1) (0xf000 <<< 64))) (4 <<< 76)

/-! ## The random-generator state of `LaTeX` (`core.py` lines 32, 235-238)

`LaTeX.__init__` stores a fresh `random.Random()` instance in `self.random`.
The reference-anonymization branch executes

  `self.random.seed(tex_code.args[0].value)`
  `uid = base36_encode(int(uuid.UUID(int=random.getrandbits(128), version=4)))`

`self.random.seed(...)` reseeds the *instance* generator, but
`random.getrandbits(128)` draws from the *module-level* generator, whose
successive outputs are modelled as an abstract stream indexed by a cursor.
The instance generator is seeded and never drawn from, so only its seed needs
to be carried. -/

structure PyRandomState where
  globalStream : Nat → Nat
  globalIdx : Nat
  selfSeed : Option String

/-- `random.getrandbits(128)` on the module-level generator: the next value of
the stream, reduced to 128 bits, advancing the cursor. -/
def getrandbits128 (g : PyRandomState) : Nat × PyRandomState :=
  (g.globalStream g.globalIdx % 2 ^ 128, { g with globalIdx := g.globalIdx + 1 })

/-- `self.random.seed(label)`: reseeds the instance generator only. -/
def seedSelfRandom (label : String) (g : PyRandomState) : PyRandomState :=
  { g with selfSeed := some label }

/-- The reference-anonymization identifier computation of `core.py`
lines 236-237, as executed for a reference label. -/
def anonymize (label : String) (g : PyRandomState) : String × PyRandomState :=
  let g1 := seedSelfRandom label g
  let p := getrandbits128 g1
  (base36_encode (uuid4OfInt p.1), p.2)

/-! ## `LaTeX.preprocess` (`core.py` lines 42-58)

Three `re.sub` passes, applied in order:
`(?<!\\)%.*` (multiline) → `""`, then `\@{1,}` → `" "`, then
`(?<!\\)\\ ` → `" "`.  Each is implemented as a left-to-right scan that
mirrors the leftmost, non-overlapping semantics of `re.sub`; the lookbehinds
track the previous character of the original string. -/

/-- First pass: any `%` whose preceding character is not `\` starts a comment
that is deleted up to (excluding) the end of its line.  `inComment` records
that the scan is inside a match of `%.*`. -/
def stripComments (prev : Option Char) (inComment : Bool) : List Char → List Char
  | [] => []
  | c :: rest =>
    if inComment then
      if c = '\n' then c :: stripComments (some c) false rest
      else stripComments (some c) true rest
    else if c = '%' ∧ prev ≠ some '\\' then stripComments (some c) true rest
    else c :: stripComments (some c) false rest

/-- Second pass: every maximal run of `@` characters becomes one space.
`lastAt` records that the previous original character was an `@` already
replaced as part of the current run. -/
def collapseAts (lastAt : Bool) : List Char → List Char
  | [] => []
  | c :: rest =>
    if c = '@' then
      if lastAt then collapseAts true rest else ' ' :: collapseAts true rest
    else c :: collapseAts false rest

/-- Third pass: every `\ ` (backslash space) whose preceding character is not
another backslash becomes a single space.  Fuel `length + 1` is ample: every
step consumes at least one character. -/
def collapseEscGo : Nat → Option Char → List Char → List Char
  | 0, _, l => l
  | _ + 1, _, [] => []
  | fuel + 1, prev, c :: rest =>
    if c = '\\' ∧ rest.head? = some ' ' ∧ prev ≠ some '\\' then
      ' ' :: collapseEscGo fuel (some ' ') rest.tail
    else c :: collapseEscGo fuel (some c) rest

def collapseEscSpaces (prev : Option Char) (l : List Char) : List Char :=
  collapseEscGo (l.length + 1) prev l

/-- `LaTeX.preprocess`: the three passes in source order. -/
def preprocess (s : String) : String :=
  ⟨collapseEscSpaces none (collapseAts false (stripComments none false s.data))⟩

/-- The character (if any) preceding the position reached after scanning `a`,
starting from a position preceded by `prev`: the last character of `a`, or
`prev` when `a` is empty.  Used to state lookbehind conditions. -/
def lastPrev (prev : Option Char) : List Char → Option Char
  | [] => prev
  | c :: rest => lastPrev (some c) rest

/-- The scan of the first pass finds no unescaped `%` in `l` (starting with
preceding character `prev`). -/
def noPercent (prev : Option Char) : List Char → Bool
  | [] => true
  | c :: rest =>
    if c = '%' ∧ prev ≠ some '\\' then false else noPercent (some c) rest

/-- The scan of the third pass finds no unescaped `\ ` in `l` (starting with
preceding character `prev`). -/
def noEscSpace (prev : Option Char) : List Char → Bool
  | [] => true
  | c :: rest =>
    if c = '\\' ∧ rest.head? = some ' ' ∧ prev ≠ some '\\' then false
    else noEscSpace (some c) rest

/-- The `lastAt` state of the second pass after scanning `a` from state
`st`: whether the position is immediately preceded by an `@`. -/
def atState (st : Bool) : List Char → Bool
  | [] => st
  | c :: rest => atState (decide (c = '@')) rest

/-! ## Generic `re.sub` scanner

`reSubGo m rep` replaces every leftmost, non-overlapping match reported by the
matcher `m` (which returns the length of the match starting at the given
suffix, every match being non-empty for the patterns used here) by `rep`.
Fuel `length + 1` is ample: every step consumes at least one character. -/

def reSubGo (m : List Char → Option Nat) (rep : List Char) : Nat → List Char → List Char
  | 0, l => l
  | _ + 1, [] => []
  | fuel + 1, c :: rest =>
    match m (c :: rest) with
    | some (n + 1) => rep ++ reSubGo m rep fuel ((c :: rest).drop (n + 1))
    | _ => c :: reSubGo m rep fuel rest

def reSubS (m : List Char → Option Nat) (rep : String) (s : String) : String :=
  ⟨reSubGo m rep.data (s.length + 1) s.data⟩

/-! ## The `SHORTHANDS` pattern (`core.py` line 128)

`(Eq|Eqs|Fig|Figure|Ref|Refs|Sec)+\.+[\~]?` replaced by a single space.
The matcher performs the backtracking search of the Python engine: ordered
alternation, the greedy `+` trying a further repetition before falling back
to the `\.+[\~]?` tail, and greedy `\.+`. -/

def shorthandTokens : List (List Char) :=
  ["Eq".data, "Eqs".data, "Fig".data, "Figure".data, "Ref".data, "Refs".data, "Sec".data]

/-- The `\.+[\~]?` tail: one or more dots (greedy) then an optional tilde. -/
def dotsOptTilde (l : List Char) : Option Nat :=
  let d := (l.takeWhile (fun c => c = '.')).length
  if 1 ≤ d then some (d + if (l.drop d).head? = some '~' then 1 else 0) else none

/-- Depth-first backtracking for the repeated group then the tail, in the
engine's order: alternatives left to right, and for each successful
alternative a further repetition is attempted before the tail.  Fuel is
consumed once per call; `shorthandMatch` supplies far more than the search
can use (alternatives sharing a viable continuation are mutually exclusive
on their next character, so the search never truly branches). -/
def shMatchGo : Nat → List (List Char) → List Char → Option Nat
  | 0, _, _ => none
  | _ + 1, [], _ => none
  | fuel + 1, t :: ts, l =>
    if t.isPrefixOf l then
      match shMatchGo fuel shorthandTokens (l.drop t.length) with
      | some m => some (t.length + m)
      | none =>
        match dotsOptTilde (l.drop t.length) with
        | some d => some (t.length + d)
        | none => shMatchGo fuel ts l
    else shMatchGo fuel ts l

def shorthandMatch (l : List Char) : Option Nat :=
  shMatchGo (8 * l.length + 64) shorthandTokens l

def shorthandsSub (s : String) : String := reSubS shorthandMatch " " s

/-! ## `REGEX_EMAIL_ADDRESS` (`helpers.py` line 21)

`[\w\.-]+@[\w\.-]+\.\w+` replaced by `[email]`.  `\w` is modelled as ASCII
word characters (letters, digits, underscore); the inputs reaching this
pattern in this development are ASCII.  The local part is a greedy class run
(no backtracking can help, since `@` is outside the class); after `@` the
greedy class run backtracks to the last `.` that is followed by a word
character, and `\w+` then takes the maximal word run. -/

def isWordChar (c : Char) : Bool := c.isAlphanum || c = '_'

def isEmailChar (c : Char) : Bool := isWordChar c || c = '.' || c = '-'

/-- Largest index `j ≥ 1` in `r` with `r[j] = '.'` and a word character at
`j + 1`: the split point the backtracking engine settles on. -/
def bestDotSplit : List Char → Nat → Option Nat
  | [], _ => none
  | c :: rest, idx =>
    match bestDotSplit rest (idx + 1) with
    | some j => some j
    | none =>
      if c = '.' ∧ 1 ≤ idx ∧ (rest.head?.map isWordChar).getD false then some idx else none

def emailMatch (l : List Char) : Option Nat :=
  let p1 := (l.takeWhile isEmailChar).length
  if 1 ≤ p1 ∧ (l.drop p1).head? = some '@' then
    let r := (l.drop (p1 + 1)).takeWhile isEmailChar
    match bestDotSplit r 0 with
    | some j =>
      let w := ((r.drop (j + 1)).takeWhile isWordChar).length
      some (p1 + 1 + j + 1 + w)
    | none => none
  else none

def emailSub (s : String) : String := reSubS emailMatch "[email]" s

/-! ## The blank-line pattern of `normalize` (`helpers.py` line 159)

`([ \t]*\n){3,}` replaced by `"\n\n"`: three or more repetitions (greedy) of
an optional space/tab run followed by a newline. -/

def blankRepsGo : Nat → List Char → Nat × Nat
  | 0, _ => (0, 0)
  | fuel + 1, l =>
    let w := (l.takeWhile (fun c => c = ' ' || c = '\t')).length
    match (l.drop w).head? with
    | some '\n' =>
      let p := blankRepsGo fuel (l.drop (w + 1))
      (p.1 + 1, w + 1 + p.2)
    | _ => (0, 0)

def blankLinesMatch (l : List Char) : Option Nat :=
  let p := blankRepsGo (l.length + 1) l
  if 3 ≤ p.1 then some p.2 else none

def blankLinesSub (s : String) : String := reSubS blankLinesMatch "\n\n" s

/-! ## Remaining sanitization primitives (`core.py` lines 126-142) -/

/-- `re.sub(r'(\\|\\\\)', '', text)`: the first alternative matches every
single backslash, so every backslash is removed. -/
def removeBackslashes (l : List Char) : List Char := l.filter (fun c => c ≠ '\\')

/-- `re.sub(r'(\~)', ' ', text)`. -/
def tildeToSpace (l : List Char) : List Char := l.map (fun c => if c = '~' then ' ' else c)

/-- `re.sub(r'\@+', '', text)`: every run of `@` (hence every `@`) removed. -/
def removeAts (l : List Char) : List Char := l.filter (fun c => c ≠ '@')

/-- `re.sub(r'(\-{2,})', '', text)`: every maximal run of two or more
hyphens is deleted; a lone hyphen is kept.  Fuel `length + 1` is ample:
every step consumes at least one character. -/
def stripHyphensGo : Nat → List Char → List Char
  | 0, l => l
  | _ + 1, [] => []
  | fuel + 1, c :: rest =>
    if c = '-' ∧ rest.head? = some '-' then
      stripHyphensGo fuel (rest.dropWhile (fun x => x = '-'))
    else c :: stripHyphensGo fuel rest

def stripHyphens (l : List Char) : List Char := stripHyphensGo (l.length + 1) l

/-- `l` contains two adjacent hyphens. -/
def hasDoubleHyphen : List Char → Bool
  | [] => false
  | [_] => false
  | a :: b :: rest => (a = '-' && b = '-') || hasDoubleHyphen (b :: rest)

/-! ## `_attobase36` (`core.py` lines 119-124)

Iterates over the characters of the *original* text; at each `@` found there
it calls `text.replace('@', '$' + base36_encode(uuid))` on the *current*
text, with a fresh draw of the process-wide UUID source each time.  (As
written the source evaluates `uuid.int_(uuid.uuid4())`, an `AttributeError`
at runtime — the Python `uuid` module has no `int_`; the evidently intended
value `uuid.uuid4().int`, a version-4 UUID over fresh random bits, is what is
modelled, with `draws` the stream of 128-bit randomness.) -/
def attobase36 (draws : Nat → Nat) (text : String) : String :=
  (text.data.foldl
    (fun acc c =>
      if c = '@' then
        (pyReplaceS acc.1 "@" ("$" ++ base36_encode (uuid4OfInt (draws acc.2))), acc.2 + 1)
      else acc)
    (text, 0)).1

/-! ## `normalize_linebreaks` with `CrlfFlag.Linux` (`helpers.py` lines 174-188) -/

def normalizeLinebreaksLinux (text : String) : String :=
  pyReplaceS (pyReplaceS text "\r\n" "\n") "\r" "\n"

/-! ## `translate_accents` (`core.py` lines 102-108) -/

def translateAccents (accents : List (String × String)) (text : String) : String :=
  accents.foldl (fun t p => if strContains t p.1 then pyReplaceS t p.1 p.2 else t) text

/-! ## `_generic_sanitization` (`core.py` lines 126-142), in source order -/

def stripHyphenRunsS (s : String) : String := ⟨stripHyphens s.data⟩

/-- Lines 130-140 of `core.py`: everything before the email substitution. -/
def genericSanitizationPreEmail (text : String) : String :=
  let t1 := pyReplaceS text "``" ""
  let t2 := pyReplaceS t1 "\"" ""
  let t3 := pyReplaceS t2 "\x27\x27" ""
  let t4 := shorthandsSub t3
  let t5 : String := ⟨removeBackslashes t4.data⟩
  let t6 : String := ⟨tildeToSpace t5.data⟩
  let t7 := stripHyphenRunsS t6
  let t8 : String := ⟨removeAts t7.data⟩
  let t9 := pyReplaceS t8 " ." "."
  let t10 := pyReplaceS t9 "---" "—"
  pyReplaceS t10 "--" "–"

/-- `_generic_sanitization`: the pre-email steps followed by the
`REGEX_EMAIL_ADDRESS` substitution of line 141. -/
def genericSanitization (text : String) : String :=
  emailSub (genericSanitizationPreEmail text)

/-! ## `normalize` with `markup=Markup.LaTeX`, `dedent=True`
(`helpers.py` lines 146-172) -/

/-- Lines 153-160: literal replacements and the blank-line collapse.  Note
that line 160 replaces the two-character sequences backslash-n backslash-n
literally (a raw string in the source), not newline pairs. -/
def normalizeLaTeXMarkup (text : String) : String :=
  let t1 := pyReplaceS text "( " "("
  let t2 := pyReplaceS t1 " )" ")"
  let t3 := pyReplaceS t2 " ," ","
  let t4 := pyReplaceS t3 " ." "."
  let t5 := pyReplaceS t4 "   " " "
  let t6 := blankLinesSub t5
  pyReplaceS t6 "\\n\\n" "\\n"

/-- Python line-boundary characters of `str.splitlines`. -/
def isLineBoundary (c : Char) : Bool :=
  c = '\n' || c = '\r' || c.toNat = 0xb || c.toNat = 0xc ||
  c.toNat = 0x1c || c.toNat = 0x1d || c.toNat = 0x1e || c.toNat = 0x85 ||
  c.toNat = 0x2028 || c.toNat = 0x2029

/-- `str.splitlines(True)`: lines with their terminators kept, `\r\n`
counting as a single terminator. -/
def splitlinesKeep (acc : List Char) : List Char → List (List Char)
  | [] => if acc = [] then [] else [acc.reverse]
  | '\r' :: '\n' :: rest => (acc.reverse ++ ['\r', '\n']) :: splitlinesKeep [] rest
  | c :: rest =>
    if isLineBoundary c then (acc.reverse ++ [c]) :: splitlinesKeep [] rest
    else splitlinesKeep (c :: acc) rest

/-- Python `str.isspace` characters (the whitespace stripped by `str.strip`). -/
def pyIsSpace (c : Char) : Bool :=
  (0x9 ≤ c.toNat && c.toNat ≤ 0xd) || (0x1c ≤ c.toNat && c.toNat ≤ 0x1f) ||
  c.toNat = 0x20 || c.toNat = 0x85 || c.toNat = 0xa0 || c.toNat = 0x1680 ||
  (0x2000 ≤ c.toNat && c.toNat ≤ 0x200a) || c.toNat = 0x2028 || c.toNat = 0x2029 ||
  c.toNat = 0x202f || c.toNat = 0x205f || c.toNat = 0x3000

def pyStripL (l : List Char) : List Char :=
  ((l.dropWhile pyIsSpace).reverse.dropWhile pyIsSpace).reverse

/-- Python `str.strip()`. -/
def pyStrip (s : String) : String := ⟨pyStripL s.data⟩

/-- Line 169: `'\n'.join(line.strip() for line in text.splitlines(True))`. -/
def dedentLines (s : String) : String :=
  String.intercalate "\n" ((splitlinesKeep [] s.data).map (fun l => (⟨pyStripL l⟩ : String)))

/-- `normalize(text, dedent=True, markup=Markup.LaTeX)`. -/
def normalize (text : String) : String :=
  pyStrip (dedentLines (normalizeLaTeXMarkup text))

/-! ## The document pipeline `to_text` (`core.py` lines 60-99) on markup-free
documents

The structural parse and tree rendering are performed by the external
`TexSoup` library together with `_to_plain_text`; for a document containing
no markup characters the spec fixes their composite behaviour exactly. -/

/-- Characters that cannot begin or take part in any LaTeX construct
recognized by the parser. -/
def isPlainChar (c : Char) : Bool :=
  c.isAlphanum || c = ' ' || c = '.' || c = ',' || c = '-' || c = ':' ||
  c = '\n' || c = '(' || c = ')'

def isPlainText (s : String) : Bool := s.data.all isPlainChar

/-- Modelled from the spec: the structural parse (the external `TexSoup`
dependency, absent from `src/`) of a document consisting only of plain
characters yields a single verbatim text run (§4.1), and the renderer
appends a text run's literal content verbatim (§4.3 case 4).  Hence
render-after-parse is the identity on such documents; other documents are
out of this model's scope (`none`). -/
def renderPlain (s : String) : Option String :=
  if isPlainText s then some s else none

/-- `to_text` (`core.py` lines 60-99) for documents whose preprocessed form
is markup-free: preprocess, parse and render (modelled by `renderPlain`),
`_attobase36`, `normalize_linebreaks(…, Linux)`, `translate_accents`,
`_generic_sanitization`, and `normalize(…, markup=LaTeX)`, in source order. -/
def toTextPlain (accents : List (String × String)) (draws : Nat → Nat) (src : String) :
    Option String :=
  (renderPlain (preprocess src)).map
    (fun rendered =>
      normalize (genericSanitization (translateAccents accents
        (normalizeLinebreaksLinux (attobase36 draws rendered)))))

/-! ## The command-dispatch of `_to_plain_text` (`core.py` lines 222-256)

A `TexCmd` node carries its name, the raw string values of its arguments
(`arg.value` in TexSoup), and its literal source text (`str(tex_code)`).
The recursive rendering of the surviving arguments in the extract branch
re-parses each argument value; that recursion is abstracted as the
`renderArgs` parameter. -/

structure Filters where
  latex_env_to_extract : List String
  latex_env_to_extract_lists : List String
  latex_env_to_discard_nbr : List String
  latex_commands_to_extract : List String
  latex_references_to_extract : List String
  latex_commands_to_discard_inline : List String
  latex_commands_to_discard_nbr : List String
  ieee_commands_to_discard_nbr : List String
  latex_line_page_breakers : List String

structure TexCommand where
  name : String
  args : List String
  src : String

/-- Name normalization of `core.py` lines 200-202: lower-case, then strip one
trailing star. -/
def lowerStrip (n : String) : String :=
  let l := n.data.map Char.toLower
  if l.getLast? = some '*' then ⟨l.dropLast⟩ else ⟨l⟩

/-- Python `name in lst` membership test. -/
def strMem (x : String) (l : List String) : Bool := l.any (fun y => decide (y = x))

/-- Python `A or B` on lists: `A` if non-empty, else `B`. -/
def pyOr (A B : List String) : List String := if A.isEmpty then B else A

/-- Association lookup in a table held as a key-value list (Python `dict`
indexing, guarded by `in` at the call sites). -/
def assocLookup : List (String × String) → String → Option String
  | [], _ => none
  | p :: rest, k => if p.1 = k then some p.2 else assocLookup rest k

/-- The accent test of lines 248-249: the command's source text is an accent
key, or starts with one. -/
def accentTest (accents : List (String × String)) (src : String) : Bool :=
  accents.any (fun p => decide (p.1 = src)) || accents.any (fun p => p.1.data.isPrefixOf src.data)

/-- The `TexCmd` branch of `_to_plain_text` (lines 222-256).  `flags` is
`self.flags` (`DebugLog.OFF = 0`, `DebugLog.ERROR = 1`); `g` the random
state used by the reference branch.  Note line 243: the membership test is
`name in (A or B or C)` — Python evaluates `A or B or C` to the first
non-empty list, not to a union. -/
def cmdRender (F : Filters) (accents unicodes : List (String × String)) (flags : Nat)
    (renderArgs : List String → String) (g : PyRandomState) (c : TexCommand) :
    String × PyRandomState :=
  let name := lowerStrip c.name
  if strMem name F.latex_commands_to_extract then
    if c.args.length = 0 then ("", g)
    else
      let remaining := if 1 < c.args.length then c.args.tail else c.args
      (renderArgs remaining, g)
  else if strMem name F.latex_references_to_extract then
    let g1 := seedSelfRandom (c.args.headD "") g
    let p := getrandbits128 g1
    (name ++ "—" ++ base36_encode (uuid4OfInt p.1), p.2)
  else if strMem name F.latex_commands_to_discard_inline then (" ", g)
  else if strMem name (pyOr (pyOr F.latex_commands_to_discard_nbr F.ieee_commands_to_discard_nbr)
      F.latex_line_page_breakers) then ("\n", g)
  else if accentTest accents c.src then (c.src, g)
  else
    match assocLookup unicodes c.src with
    | some u => (u, g)
    | none =>
      if flags = 1 then ("\n#Error! Unknown LaTeX command: " ++ c.name ++ ".\n", g)
      else ("", g)

/-! ## Concrete classification and translation tables

Modelled from the spec: `filters2.yaml`, `translation.json` and
`latex_unicode_symbols.json` are loaded at engine construction but are not
under `src/`; §3 and §4.3 of the spec name the categories and the two
translation maps.  The concrete contents below are representative values
used to instantiate theorems. -/

def sampleFilters : Filters where
  latex_env_to_extract := ["document", "abstract", "center"]
  latex_env_to_extract_lists := ["itemize", "enumerate"]
  latex_env_to_discard_nbr := ["$", "equation", "figure", "table"]
  latex_commands_to_extract := ["section", "textbf", "emph"]
  latex_references_to_extract := ["cite", "ref"]
  latex_commands_to_discard_inline := ["label", "index"]
  latex_commands_to_discard_nbr := ["par", "maketitle"]
  ieee_commands_to_discard_nbr := ["ieeepeerreviewmaketitle", "ieeeaftertitletext"]
  latex_line_page_breakers := ["newline", "pagebreak", "clearpage"]

def sampleAccents : List (String × String) :=
  [("\\\x27e", "é"), ("\\\"o", "ö"), ("\\`a", "à")]

def sampleUnicodes : List (String × String) :=
  [("\\alpha", "α"), ("\\beta", "β")]

/-! ## `_preprocess_macros` usage expansion (`core.py` lines 183-192)

The node model: commands carry the raw values of their arguments,
environments carry children, text runs their content.  Given one processed
definition (`command`, declared arity `nargs`, template), every usage of
`command` found in the tree with exactly `nargs` arguments is replaced by
the re-parse (`parse`, the external `TexSoup` call on the substituted
template) of the template after placeholder substitution; usages with any
other argument count are left unchanged (`continue` in the source, no
error). -/

inductive TexN where
  | cmd (name : String) (args : List String) : TexN
  | env (name : String) (args : List String) (children : List TexN) : TexN
  | txt (s : String) : TexN

/-- Lines 188-190: `for k in range(0, nargs): new_str =
new_str.replace('#' + str(k+1), '{' + usage.args[k].value + '}')` — the
placeholders are replaced sequentially, each argument wrapped in braces. -/
def substTemplate (tpl : String) (args : List String) : String :=
  (List.range args.length).foldl
    (fun s k => pyReplaceS s ("#" ++ toString (k + 1)) ("\x7b" ++ args.getD k "" ++ "\x7d"))
    tpl

/-- The usage-rewriting loop: every usage of `command` anywhere in the node
list (recursively through environment children) with argument count exactly
`nargs` is replaced in place by `parse` of the substituted template; all
other nodes are kept. -/
def expandUsages (parse : String → List TexN) (command : String) (nargs : Nat) (tpl : String) :
    List TexN → List TexN
  | [] => []
  | TexN.cmd n args :: rest =>
    (if n = command ∧ args.length = nargs then parse (substTemplate tpl args)
     else [TexN.cmd n args]) ++ expandUsages parse command nargs tpl rest
  | TexN.env n args children :: rest =>
    TexN.env n args (expandUsages parse command nargs tpl children) ::
      expandUsages parse command nargs tpl rest
  | TexN.txt s :: rest => TexN.txt s :: expandUsages parse command nargs tpl rest

/-! # Helper lemmas -/

theorem base36digit_val : ∀ i, i < 36 → base36val (base36digit i) = some i := by decide

theorem base36digit_mem : ∀ i, i < 36 → base36digit i ∈ base36chars := by decide

theorem base36chars_valid : ∀ c ∈ base36chars, (base36val c).isSome := by decide

theorem base36go_spec : ∀ fuel num, num < fuel →
    base36acc (base36go fuel num) = num ∧
    base36go fuel num ≠ [] ∧
    ∀ c ∈ base36go fuel num, c ∈ base36chars := by
  intro fuel
  induction fuel with
  | zero => intro num h; omega
  | succ f ih =>
    intro num hnum
    by_cases h : num < 36
    · refine ⟨?_, by simp [base36go, h], ?_⟩
      · simp [base36go, h, base36acc, base36digit_val num h]
      · intro c hc
        simp [base36go, h] at hc
        exact hc ▸ base36digit_mem num h
    · have hq : num / 36 < f := by
        have h1 : num / 36 < num := Nat.div_lt_self (by omega) (by omega)
        omega
      obtain ⟨ha, hne, hmem⟩ := ih (num / 36) hq
      have hgo : base36go (f + 1) num = base36go f (num / 36) ++ [base36digit (num % 36)] := by
        simp [base36go, h]
      refine ⟨?_, by simp [hgo], ?_⟩
      · rw [hgo, base36acc, List.foldl_append]
        have hd : base36val (base36digit (num % 36)) = some (num % 36) :=
          base36digit_val _ (Nat.mod_lt _ (by omega))
        simp only [base36acc] at ha
        simp only [List.foldl_cons, List.foldl_nil, hd, ha, Option.getD_some]
        omega
      · intro c hc
        rw [hgo] at hc
        rcases List.mem_append.mp hc with h1 | h1
        · exact hmem c h1
        · simp only [List.mem_singleton] at h1
          exact h1 ▸ base36digit_mem _ (Nat.mod_lt _ (by omega))

theorem base36_decode_digits (l : List Char) (hne : l ≠ []) (hmem : ∀ c ∈ l, c ∈ base36chars) :
    base36_decode ⟨l⟩ = some (base36acc l : Int) := by
  cases l with
  | nil => exact absurd rfl hne
  | cons x xs =>
    have hx := hmem x (by simp)
    have hx1 : x ≠ '-' := by rintro rfl; simp [base36chars] at hx
    have hx2 : x ≠ '+' := by rintro rfl; simp [base36chars] at hx
    have hall : (x :: xs).all (fun c => (base36val c).isSome) = true := by
      rw [List.all_eq_true]; intro c hc; exact base36chars_valid c (hmem c hc)
    simp only [base36_decode]
    simp [hx1, hx2, hall]

/-! # The claims -/

/-- Claim C10: `base36_encode` of every non-negative integer is a non-empty
string over the digits `0`-`9`, `A`-`Z`, with `base36_encode 0 = "0"`, and
`base36_decode` is a left inverse of `base36_encode`. -/
theorem c10_base36_roundtrip (n : Nat) :
    base36_encode n ≠ "" ∧
    (∀ c ∈ (base36_encode n).data, c ∈ base36chars) ∧
    base36_encode 0 = "0" ∧
    base36_decode (base36_encode n) = some (n : Int) := by
  obtain ⟨ha, hne, hmem⟩ := base36go_spec (n + 1) n (by omega)
  refine ⟨?_, ?_, by decide, ?_⟩
  · intro hcon
    exact hne (by simpa using congrArg String.data hcon)
  · intro c hc; exact hmem c hc
  · rw [show base36_encode n = ⟨base36go (n + 1) n⟩ from rfl,
      base36_decode_digits _ hne hmem, ha]

/-- Claim C1: refuted on the code (status `code_bug`).  The reference
anonymizer seeds the instance generator `self.random` but draws its 128
bits from the module-level generator `random`, so anonymizing one and the
same label twice in a run yields two different identifiers: with the
module-level generator modelled as the stream `i ↦ i` starting at cursor
`0`, the two identifiers obtained for `"cite:smith2020"` differ. -/
theorem c1_anonymize_not_deterministic_per_label :
    (anonymize "cite:smith2020" ⟨fun i => i, 0, none⟩).1 ≠
      (anonymize "cite:smith2020" ((anonymize "cite:smith2020" ⟨fun i => i, 0, none⟩).2)).1 := by
  decide

/-- Claim C2: refuted on the code (status `code_bug`).  Line 243 of
`core.py` tests `name in (A or B or C)`; Python evaluates `A or B or C` to
the first non-empty operand, not to a union, so a command of the
publisher-specific sub-table (here `\IEEEpeerreviewmaketitle`, whose
normalized name is in `ieee_commands_to_discard_nbr`) renders as the empty
string rather than the claimed `"\n"`, while a command of the first
sub-table (`\par`) does render `"\n"`. -/
theorem c2_discard_newline_not_union :
    strMem (lowerStrip "IEEEpeerreviewmaketitle") sampleFilters.ieee_commands_to_discard_nbr = true ∧
    (cmdRender sampleFilters sampleAccents sampleUnicodes 0 (fun _ => "") ⟨fun i => i, 0, none⟩
        ⟨"IEEEpeerreviewmaketitle", [], "\\IEEEpeerreviewmaketitle"⟩).1 = "" ∧
    (cmdRender sampleFilters sampleAccents sampleUnicodes 0 (fun _ => "") ⟨fun i => i, 0, none⟩
        ⟨"par", [], "\\par"⟩).1 = "\n" := by
  refine ⟨by decide, by decide, by decide⟩

/-- Claim C7: refuted on the code (status `code_bug`).  `_attobase36`
iterates over the characters of the original text but calls
`text.replace('@', …)`, which replaces *every* occurrence at once: with
distinct draws `0` and `1` available, both `@` of `"a@b@c"` receive the
identifier derived from draw `0` — the same token, where the claim requires
distinct tokens per occurrence.  (As written the source line would not even
run: `uuid.int_` does not exist; the intended `uuid.uuid4().int` is
modelled.) -/
theorem c7_atto_same_token_all_occurrences :
    attobase36 (fun i => i) "a@b@c" =
      "a$" ++ base36_encode (uuid4OfInt 0) ++ "b$" ++ base36_encode (uuid4OfInt 0) ++ "c" := by
  decide

theorem expandUsages_append (parse : String → List TexN) (command tpl : String) (nargs : Nat) :
    ∀ xs ys : List TexN,
      expandUsages parse command nargs tpl (xs ++ ys) =
        expandUsages parse command nargs tpl xs ++ expandUsages parse command nargs tpl ys := by
  intro xs
  induction xs with
  | nil => intro ys; simp [expandUsages]
  | cons x rest ih =>
    intro ys
    cases x with
    | cmd n args => simp [expandUsages, ih]
    | env n args children => simp [expandUsages, ih]
    | txt s => simp [expandUsages, ih]

/-- Claim C3: confirmed.  For a macro definition of declared arity `nargs`
with template `tpl`, every usage of the macro name anywhere in the node
list whose argument count equals `nargs` exactly is replaced in place by
the re-parse of the template with each placeholder `#k` substituted by
the `k`-th usage argument wrapped in braces (`substTemplate`, the
sequential replacement loop of the source); a usage with any other
argument count is left unchanged, and the rewriting is total (no error is
raised).  Expansion also reaches usages nested inside environments, and
the spec's acceptance example substitutes as required. -/
theorem c3_macro_usage_expansion (parse : String → List TexN) (command tpl : String)
    (nargs : Nat) (pre post : List TexN) (args : List String) :
    (expandUsages parse command nargs tpl (pre ++ TexN.cmd command args :: post) =
      expandUsages parse command nargs tpl pre ++
        (if args.length = nargs then parse (substTemplate tpl args)
         else [TexN.cmd command args]) ++
        expandUsages parse command nargs tpl post) ∧
    (∀ n a children rest, expandUsages parse command nargs tpl (TexN.env n a children :: rest) =
      TexN.env n a (expandUsages parse command nargs tpl children) ::
        expandUsages parse command nargs tpl rest) ∧
    substTemplate "bar #1 bar" ["baz"] = "bar \x7bbaz\x7d bar" := by
  refine ⟨?_, fun n a children rest => by simp [expandUsages], by decide⟩
  rw [expandUsages_append]
  have hmid : expandUsages parse command nargs tpl (TexN.cmd command args :: post) =
      (if args.length = nargs then parse (substTemplate tpl args)
       else [TexN.cmd command args]) ++ expandUsages parse command nargs tpl post := by
    by_cases h : args.length = nargs
    · simp [expandUsages, h]
    · simp [expandUsages, h]
  rw [hmid, List.append_assoc]

theorem strMem_pyOr (x : String) (A B : List String) (hA : strMem x A = false)
    (hB : strMem x B = false) : strMem x (pyOr A B) = false := by
  unfold pyOr; split <;> assumption

/-- Claim C8: confirmed.  A command whose normalized name is in none of the
classification tables, whose source text is neither an accent key nor an
extension of one, and which is no known symbol, renders as the empty string
under `flags = OFF (0)` and as an inline diagnostic naming the command
under `flags = ERROR (1)`; the dispatch is total, so neither mode raises. -/
theorem c8_unknown_command_behavior (F : Filters) (accents unicodes : List (String × String))
    (renderArgs : List String → String) (g : PyRandomState) (c : TexCommand)
    (h1 : strMem (lowerStrip c.name) F.latex_commands_to_extract = false)
    (h2 : strMem (lowerStrip c.name) F.latex_references_to_extract = false)
    (h3 : strMem (lowerStrip c.name) F.latex_commands_to_discard_inline = false)
    (h4 : strMem (lowerStrip c.name) F.latex_commands_to_discard_nbr = false)
    (h5 : strMem (lowerStrip c.name) F.ieee_commands_to_discard_nbr = false)
    (h6 : strMem (lowerStrip c.name) F.latex_line_page_breakers = false)
    (h7 : accentTest accents c.src = false)
    (h8 : assocLookup unicodes c.src = none) :
    (cmdRender F accents unicodes 0 renderArgs g c).1 = "" ∧
    (cmdRender F accents unicodes 1 renderArgs g c).1 =
      "\n#Error! Unknown LaTeX command: " ++ c.name ++ ".\n" ∧
    ∃ s1 s2, (cmdRender F accents unicodes 1 renderArgs g c).1 = s1 ++ c.name ++ s2 := by
  have hor := strMem_pyOr _ _ _ (strMem_pyOr _ _ _ h4 h5) h6
  refine ⟨?_, ?_, ?_⟩
  · simp [cmdRender, h1, h2, h3, hor, h7, h8]
  · simp [cmdRender, h1, h2, h3, hor, h7, h8]
  · exact ⟨"\n#Error! Unknown LaTeX command: ", ".\n",
      by simp [cmdRender, h1, h2, h3, hor, h7, h8]⟩

/-! ## Character-preservation lemmas for the sanitization chain -/

theorem at_not_mem_collapseAts : ∀ (l : List Char) (st : Bool), '@' ∉ collapseAts st l := by
  intro l
  induction l with
  | nil => intro st; simp [collapseAts]
  | cons c rest ih =>
    intro st
    by_cases hc : c = '@'
    · by_cases hst : st <;> simp [collapseAts, hc, hst, ih]
    · simp [collapseAts, hc, ih]
      exact fun h => hc h.symm

theorem mem_collapseEscGo : ∀ (fuel : Nat) (prev : Option Char) (l : List Char) (c : Char),
    c ∈ collapseEscGo fuel prev l → c ∈ l ∨ c = ' ' := by
  intro fuel
  induction fuel with
  | zero => intro prev l c h; exact Or.inl h
  | succ f ih =>
    intro prev l c h
    cases l with
    | nil => simp [collapseEscGo] at h
    | cons x rest =>
      rw [collapseEscGo] at h
      split at h
      · rcases List.mem_cons.mp h with h1 | h1
        · exact Or.inr h1
        · rcases ih _ _ _ h1 with h2 | h2
          · exact Or.inl (List.mem_cons_of_mem x (List.tail_subset rest h2))
          · exact Or.inr h2
      · rcases List.mem_cons.mp h with h1 | h1
        · exact Or.inl (h1 ▸ List.mem_cons_self x rest)
        · rcases ih _ _ _ h1 with h2 | h2
          · exact Or.inl (List.mem_cons_of_mem x h2)
          · exact Or.inr h2

/-- After `preprocess` no `@` remains: the second pass removed them all and
the third pass introduces only spaces. -/
theorem at_not_mem_preprocess (s : String) : '@' ∉ (preprocess s).data := by
  intro h
  have h2 := mem_collapseEscGo _ _ _ _ h
  rcases h2 with h2 | h2
  · exact at_not_mem_collapseAts _ _ h2
  · exact absurd h2 (by decide)

theorem mem_pyReplaceL : ∀ (fuel : Nat) (pat rep l : List Char) (c : Char),
    c ∈ pyReplaceL pat rep fuel l → c ∈ l ∨ c ∈ rep := by
  intro fuel
  induction fuel with
  | zero => intro _ _ l c h; exact Or.inl h
  | succ f ih =>
    intro pat rep l c h
    cases l with
    | nil => simp [pyReplaceL] at h
    | cons x rest =>
      rw [pyReplaceL] at h
      split at h
      · rcases List.mem_append.mp h with h1 | h1
        · exact Or.inr h1
        · rcases ih _ _ _ _ h1 with h2 | h2
          · exact Or.inl (List.drop_subset _ _ h2)
          · exact Or.inr h2
      · rcases List.mem_cons.mp h with h1 | h1
        · exact Or.inl (h1 ▸ List.mem_cons_self x rest)
        · rcases ih _ _ _ _ h1 with h2 | h2
          · exact Or.inl (List.mem_cons_of_mem x h2)
          · exact Or.inr h2

theorem no_at_pyReplaceS (s pat rep : String) (hs : '@' ∉ s.data) (hr : '@' ∉ rep.data) :
    '@' ∉ (pyReplaceS s pat rep).data := by
  unfold pyReplaceS
  split
  · exact hs
  · intro h
    rcases mem_pyReplaceL _ _ _ _ _ h with h1 | h1
    · exact hs h1
    · exact hr h1

/-- The email pattern cannot match without an `@`. -/
theorem emailMatch_no_at (l : List Char) (h : '@' ∉ l) : emailMatch l = none := by
  unfold emailMatch
  rw [if_neg]
  rintro ⟨-, h2⟩
  have : '@' ∈ l.drop (l.takeWhile isEmailChar).length := by
    cases hd : List.drop (l.takeWhile isEmailChar).length l with
    | nil => simp [hd] at h2
    | cons y ys => simp [hd] at h2 ⊢; exact Or.inl h2.symm
  exact h (List.drop_subset _ _ this)

theorem reSubGo_email_no_at : ∀ (fuel : Nat) (rep l : List Char), '@' ∉ l →
    reSubGo emailMatch rep fuel l = l := by
  intro fuel
  induction fuel with
  | zero => intro rep l h; rfl
  | succ f ih =>
    intro rep l h
    cases l with
    | nil => rfl
    | cons x rest =>
      rw [reSubGo, emailMatch_no_at _ h]
      rw [ih rep rest (fun hm => h (List.mem_cons_of_mem x hm))]

theorem emailSub_no_at (s : String) (h : '@' ∉ s.data) : emailSub s = s := by
  unfold emailSub reSubS
  rw [reSubGo_email_no_at _ _ _ h]

/-- By the time the email substitution of line 141 runs, line 137 has already
removed every `@`, and the later replacements insert none. -/
theorem no_at_preEmail (t : String) : '@' ∉ (genericSanitizationPreEmail t).data := by
  unfold genericSanitizationPreEmail
  apply no_at_pyReplaceS _ _ _ ?_ (by decide)
  apply no_at_pyReplaceS _ _ _ ?_ (by decide)
  apply no_at_pyReplaceS _ _ _ ?_ (by decide)
  simp [removeAts, List.mem_filter]

theorem gs_eq_preEmail (t : String) : genericSanitization t = genericSanitizationPreEmail t :=
  emailSub_no_at _ (no_at_preEmail t)

/-! ## The hyphen strip leaves no adjacent hyphens -/

theorem head_dropWhile_hyphen : ∀ l : List Char,
    (l.dropWhile (fun x => x = '-')).head? ≠ some '-' := by
  intro l
  induction l with
  | nil => simp
  | cons c rest ih =>
    by_cases hc : c = '-'
    · simpa [List.dropWhile, hc] using ih
    · simp [List.dropWhile, hc]

theorem stripHyphensGo_head : ∀ (fuel : Nat) (l : List Char), l.head? ≠ some '-' →
    (stripHyphensGo fuel l).head? = l.head? := by
  intro fuel l h
  cases fuel with
  | zero => rfl
  | succ f =>
    cases l with
    | nil => rfl
    | cons c rest =>
      have hc : ¬ (c = '-') := by intro hh; exact h (by simp [hh])
      simp [stripHyphensGo, hc]

theorem stripHyphensGo_no_dh : ∀ (fuel : Nat) (l : List Char), l.length < fuel →
    hasDoubleHyphen (stripHyphensGo fuel l) = false := by
  intro fuel
  induction fuel with
  | zero => intro l h; omega
  | succ f ih =>
    intro l hlen
    cases l with
    | nil => simp [stripHyphensGo, hasDoubleHyphen]
    | cons c rest =>
      simp only [List.length_cons] at hlen
      by_cases hcond : c = '-' ∧ rest.head? = some '-'
      · rw [stripHyphensGo, if_pos hcond]
        apply ih
        have := (List.dropWhile_sublist (l := rest) (p := fun x => x = '-')).length_le
        omega
      · rw [stripHyphensGo, if_neg hcond]
        have hR := ih rest (by omega)
        cases hr : stripHyphensGo f rest with
        | nil => simp [hasDoubleHyphen]
        | cons b r =>
          rw [hasDoubleHyphen]
          rw [hr] at hR
          rw [hR]
          simp only [Bool.or_false]
          by_cases hc : c = '-'
          · have hrest : rest.head? ≠ some '-' := fun hh => hcond ⟨hc, hh⟩
            have := stripHyphensGo_head f rest hrest
            rw [hr] at this
            have hb : b ≠ '-' := by
              intro hb
              rw [hb] at this
              exact hrest this.symm
            simp [hb]
          · simp [hc]

theorem stripHyphens_no_dh (l : List Char) : hasDoubleHyphen (stripHyphens l) = false :=
  stripHyphensGo_no_dh (l.length + 1) l (by omega)

/-! ## The scan-prefix lemmas for `preprocess` -/

theorem stripComments_append : ∀ (a : List Char) (prev : Option Char) (l : List Char),
    noPercent prev a = true →
    stripComments prev false (a ++ l) = a ++ stripComments (lastPrev prev a) false l := by
  intro a
  induction a with
  | nil => intro prev l _; simp [lastPrev]
  | cons x a' ih =>
    intro prev l h
    rw [noPercent] at h
    by_cases hcond : x = '%' ∧ prev ≠ some '\\'
    · rw [if_pos hcond] at h; exact absurd h (by simp)
    · rw [if_neg hcond] at h
      have hstep : stripComments prev false (x :: (a' ++ l)) =
          x :: stripComments (some x) false (a' ++ l) := by
        simp [stripComments, hcond]
      rw [List.cons_append, hstep, ih (some x) l h]
      simp [lastPrev]

theorem stripComments_comment_nl : ∀ (cmt : List Char) (p : Option Char) (d : List Char),
    '\n' ∉ cmt →
    stripComments p true (cmt ++ '\n' :: d) = '\n' :: stripComments (some '\n') false d := by
  intro cmt
  induction cmt with
  | nil => intro p d _; simp [stripComments]
  | cons x cmt' ih =>
    intro p d h
    have hx : ¬ (x = '\n') := fun hh => h (by simp [hh])
    simp only [List.cons_append, stripComments, if_pos trivial, if_neg hx]
    exact ih (some x) d (fun hm => h (List.mem_cons_of_mem x hm))

theorem stripComments_comment_eos : ∀ (cmt : List Char) (p : Option Char),
    '\n' ∉ cmt → stripComments p true cmt = [] := by
  intro cmt
  induction cmt with
  | nil => intro p _; rfl
  | cons x cmt' ih =>
    intro p h
    have hx : ¬ (x = '\n') := fun hh => h (by simp [hh])
    simp only [stripComments, if_pos trivial, if_neg hx]
    exact ih (some x) (fun hm => h (List.mem_cons_of_mem x hm))

theorem collapseAts_append : ∀ (a : List Char) (st : Bool) (l : List Char),
    collapseAts st (a ++ l) = collapseAts st a ++ collapseAts (atState st a) l := by
  intro a
  induction a with
  | nil => intro st l; simp [collapseAts, atState]
  | cons c a' ih =>
    intro st l
    by_cases hc : c = '@'
    · by_cases hst : st <;> simp [collapseAts, atState, hc, hst, ih]
    · simp [collapseAts, atState, hc, ih]

theorem atState_lastPrev : ∀ (a : List Char) (prev : Option Char),
    atState (decide (prev = some '@')) a = decide (lastPrev prev a = some '@') := by
  intro a
  induction a with
  | nil => intro prev; rfl
  | cons c a' ih =>
    intro prev
    rw [atState, lastPrev]
    have : (decide (c = '@')) = (decide ((some c : Option Char) = some '@')) := by simp
    rw [this, ih (some c)]

theorem collapseAts_skiprun : ∀ (k : Nat) (b : List Char),
    collapseAts true (List.replicate k '@' ++ b) = collapseAts true b := by
  intro k
  induction k with
  | zero => intro b; rfl
  | succ n ih => intro b; simp [List.replicate_succ, collapseAts, ih]

theorem collapseAts_state_irrel (b : List Char) (h : b.head? ≠ some '@') :
    collapseAts true b = collapseAts false b := by
  cases b with
  | nil => rfl
  | cons c r =>
    have hc : ¬ (c = '@') := fun hh => h (by simp [hh])
    simp [collapseAts, hc]

theorem collapseAts_run (k : Nat) (b : List Char) (hk : 1 ≤ k) (hb : b.head? ≠ some '@') :
    collapseAts false (List.replicate k '@' ++ b) = ' ' :: collapseAts false b := by
  cases k with
  | zero => omega
  | succ n =>
    have hstep : collapseAts false ('@' :: (List.replicate n '@' ++ b)) =
        ' ' :: collapseAts true (List.replicate n '@' ++ b) := by
      simp [collapseAts]
    rw [List.replicate_succ, List.cons_append, hstep,
      collapseAts_skiprun n b, collapseAts_state_irrel b hb]

theorem collapseEscGo_fuel : ∀ (n : Nat) (l : List Char) (f1 f2 : Nat) (prev : Option Char),
    l.length ≤ n → l.length < f1 → l.length < f2 →
    collapseEscGo f1 prev l = collapseEscGo f2 prev l := by
  intro n
  induction n with
  | zero =>
    intro l f1 f2 prev hn h1 h2
    have : l = [] := List.length_eq_zero.mp (by omega)
    subst this
    cases f1 with
    | zero => omega
    | succ m1 => cases f2 with
      | zero => omega
      | succ m2 => rfl
  | succ k ih =>
    intro l f1 f2 prev hn h1 h2
    cases l with
    | nil =>
      cases f1 with
      | zero => omega
      | succ m1 => cases f2 with
        | zero => omega
        | succ m2 => rfl
    | cons c rest =>
      cases f1 with
      | zero => omega
      | succ m1 => cases f2 with
        | zero => omega
        | succ m2 =>
          simp only [List.length_cons] at hn h1 h2
          rw [collapseEscGo, collapseEscGo]
          by_cases hcond : c = '\\' ∧ rest.head? = some ' ' ∧ prev ≠ some '\\'
          · rw [if_pos hcond, if_pos hcond]
            have hlt : rest.tail.length ≤ rest.length := by
              cases rest <;> simp
            rw [ih rest.tail m1 m2 (some ' ') (by omega) (by omega) (by omega)]
          · rw [if_neg hcond, if_neg hcond]
            rw [ih rest m1 m2 (some c) (by omega) (by omega) (by omega)]

theorem collapseEscGo_match : ∀ (fuel : Nat) (a : List Char) (prev : Option Char) (b : List Char),
    a.length + 2 + b.length < fuel →
    noEscSpace prev a = true →
    lastPrev prev a ≠ some '\\' →
    collapseEscGo fuel prev (a ++ '\\' :: ' ' :: b) =
      a ++ ' ' :: collapseEscSpaces (some ' ') b := by
  intro fuel
  induction fuel with
  | zero => intro a prev b h; omega
  | succ f ih =>
    intro a prev b hlen hno hlast
    cases a with
    | nil =>
      have hprev : prev ≠ some '\\' := hlast
      simp only [List.nil_append, List.length_nil] at hlen ⊢
      rw [collapseEscGo, if_pos ⟨rfl, by simp, hprev⟩]
      simp only [List.tail_cons]
      rw [collapseEscSpaces]
      rw [collapseEscGo_fuel b.length b f (b.length + 1) (some ' ') (by omega) (by omega)
        (by omega)]
    | cons c a' =>
      rw [noEscSpace] at hno
      by_cases hcond : c = '\\' ∧ a'.head? = some ' ' ∧ prev ≠ some '\\'
      · rw [if_pos hcond] at hno; exact absurd hno (by simp)
      · rw [if_neg hcond] at hno
        have hcondl : ¬ (c = '\\' ∧ (a' ++ '\\' :: ' ' :: b).head? = some ' ' ∧
            prev ≠ some '\\') := by
          cases a' with
          | nil => rintro ⟨-, hh, -⟩; simp at hh
          | cons y a'' => intro ⟨h1, h2, h3⟩; simp at h2; exact hcond ⟨h1, by simp [h2], h3⟩
        rw [List.cons_append, collapseEscGo, if_neg hcondl]
        simp only [List.length_cons] at hlen
        rw [ih a' (some c) b (by omega) hno (by simpa [lastPrev] using hlast)]
        rfl

theorem collapseEsc_match (a : List Char) (prev : Option Char) (b : List Char)
    (hno : noEscSpace prev a = true) (hlast : lastPrev prev a ≠ some '\\') :
    collapseEscSpaces prev (a ++ '\\' :: ' ' :: b) =
      a ++ ' ' :: collapseEscSpaces (some ' ') b := by
  rw [collapseEscSpaces]
  exact collapseEscGo_match _ a prev b (by simp; omega) hno hlast

/-! ## Remaining claims -/

/-- Claim C4: refuted on the code (status `code_bug`).  The multiple-space
collapse of `normalize` is the single literal replacement
`text.replace('   ', ' ')`, which is not idempotent: the pipeline maps
`"a     b"` (five spaces) to `"a   b"` (three spaces), but maps its own
output `"a   b"` to `"a b"`, contradicting the claimed
`normalize∘render∘parse` idempotence on its own output. -/
theorem c4_pipeline_not_idempotent :
    toTextPlain sampleAccents (fun _ => 0) "a     b" = some "a   b" ∧
    toTextPlain sampleAccents (fun _ => 0) "a   b" = some "a b" ∧
    ("a   b" : String) ≠ "a b" := by
  refine ⟨by decide, by decide, by decide⟩

/-- Claim C5: refuted as stated (status `corrected`).  For the input
`"alice@example.com"` the pipeline output is `"alice example.com"`: the
placeholder `[email]` never appears, because `preprocess` collapsed the
`@` to a space long before the email substitution could see it. -/
theorem c5_email_not_redacted :
    toTextPlain sampleAccents (fun _ => 0) "alice@example.com" = some "alice example.com" ∧
    strContains "alice example.com" "[email]" = false := by
  refine ⟨by decide, by decide⟩

/-- Claim C5, amended: the email-redaction step never fires.  `preprocess`
leaves no `@` in any document, and inside `_generic_sanitization` the
residual-`@` strip (line 137) precedes the email substitution (line 141),
which is therefore the identity: `_generic_sanitization` coincides with its
email-free prefix on every input.  The substitution machinery itself would
redact an email reaching it, as the final conjunct shows. -/
theorem c5_email_redaction_never_fires :
    (∀ s : String, '@' ∉ (preprocess s).data) ∧
    (∀ t : String, genericSanitization t = genericSanitizationPreEmail t) ∧
    emailSub "see alice@example.com now" = "see [email] now" := by
  refine ⟨at_not_mem_preprocess, gs_eq_preEmail, by decide⟩

/-- Claim C6: refuted as stated (status `corrected`).  A literal `"---"` in
the rendered text is deleted by the hyphen-run strip of line 136 before the
dash conversions of lines 139-140 run: the pipeline maps `"a---b"` to
`"ab"` and no em dash appears in the output. -/
theorem c6_triple_hyphen_not_emdash :
    toTextPlain sampleAccents (fun _ => 0) "a---b" = some "ab" ∧
    strContains "ab" "—" = false := by
  refine ⟨by decide, by decide⟩

/-- Claim C6, amended: the hyphen-run strip precedes the dash conversions
and leaves no two adjacent hyphens anywhere, so runs of hyphens present in
the rendered text are removed, not converted; the em/en-dash replacements
only affect hyphen pairs re-created afterwards by the residual-`@` removal
of line 137 (for example around the `@` emitted for math environments). -/
theorem c6_hyphen_strip_precedes_dash_conversion :
    (∀ l : List Char, hasDoubleHyphen (stripHyphens l) = false) ∧
    genericSanitization "a---b" = "ab" ∧
    genericSanitization "a-@-b" = "a–b" ∧
    genericSanitization "a-@-@-b" = "a—b" := by
  refine ⟨stripHyphens_no_dh, by decide, by decide, by decide⟩

/-- Claim C9: confirmed.  `preprocess` is the composition of the three
passes in source order (last conjunct), and each pass does exactly what the
claim states: (1) a `%` not preceded by a backslash deletes itself and the
rest of its line, the line break surviving (and deletes to the end of input
on the last line); (2) every maximal run of `@` (not adjacent to further
`@`) becomes a single space, the surrounding text passing through
unchanged; (3) every `\ ` not preceded by another backslash becomes a
single space.  The prefixes `a` left of the match are preserved verbatim in
every case. -/
theorem c9_preprocess_spec :
    (∀ (a cmt d : List Char), noPercent none a = true → lastPrev none a ≠ some '\\' →
      '\n' ∉ cmt →
      stripComments none false (a ++ '%' :: (cmt ++ '\n' :: d)) =
        a ++ '\n' :: stripComments (some '\n') false d) ∧
    (∀ (a cmt : List Char), noPercent none a = true → lastPrev none a ≠ some '\\' →
      '\n' ∉ cmt →
      stripComments none false (a ++ '%' :: cmt) = a) ∧
    (∀ (a : List Char) (k : Nat) (b : List Char), 1 ≤ k → lastPrev none a ≠ some '@' →
      b.head? ≠ some '@' →
      collapseAts false (a ++ (List.replicate k '@' ++ b)) =
        collapseAts false a ++ ' ' :: collapseAts false b) ∧
    (∀ (a b : List Char), noEscSpace none a = true → lastPrev none a ≠ some '\\' →
      collapseEscSpaces none (a ++ '\\' :: ' ' :: b) =
        a ++ ' ' :: collapseEscSpaces (some ' ') b) ∧
    (∀ s : String, preprocess s =
      ⟨collapseEscSpaces none (collapseAts false (stripComments none false s.data))⟩) := by
  refine ⟨?_, ?_, ?_, ?_, fun s => rfl⟩
  · intro a cmt d h1 h2 h3
    rw [stripComments_append a none _ h1]
    have hstep : stripComments (lastPrev none a) false ('%' :: (cmt ++ '\n' :: d)) =
        stripComments (some '%') true (cmt ++ '\n' :: d) := by
      simp [stripComments, h2]
    rw [hstep, stripComments_comment_nl cmt _ d h3]
  · intro a cmt h1 h2 h3
    rw [stripComments_append a none _ h1]
    have hstep : stripComments (lastPrev none a) false ('%' :: cmt) =
        stripComments (some '%') true cmt := by
      simp [stripComments, h2]
    rw [hstep, stripComments_comment_eos cmt _ h3]
    simp
  · intro a k b hk ha hb
    rw [collapseAts_append]
    have hst : atState false a = false := by
      have h := atState_lastPrev a none
      simp only [show (decide ((none : Option Char) = some '@')) = false from rfl] at h
      rw [h, decide_eq_false_iff_not]
      exact ha
    rw [hst, collapseAts_run k b hk hb]
  · intro a b h1 h2
    exact collapseEsc_match a none b h1 h2

/-- Witness for C9: a comment `x%y` followed by line `z`, a run of two `@`
between `x` and `y`, and an escaped space between `x` and `y`. -/
theorem c9_preprocess_spec_witness :
    (stripComments none false (['x'] ++ '%' :: (['y'] ++ '\n' :: ['z'])) =
      ['x'] ++ '\n' :: stripComments (some '\n') false ['z']) ∧
    (collapseAts false (['x'] ++ (List.replicate 2 '@' ++ ['y'])) =
      collapseAts false ['x'] ++ ' ' :: collapseAts false ['y']) ∧
    (collapseEscSpaces none (['x'] ++ '\\' :: ' ' :: ['y']) =
      ['x'] ++ ' ' :: collapseEscSpaces (some ' ') ['y']) := by
  refine ⟨c9_preprocess_spec.1 ['x'] ['y'] ['z'] (by decide) (by decide) (by decide),
    c9_preprocess_spec.2.2.1 ['x'] 2 ['y'] (by decide) (by decide) (by decide),
    c9_preprocess_spec.2.2.2.1 ['x'] ['y'] (by decide) (by decide)⟩

/-- Witness for C8: the unknown command `\zzzfoo{}` with the concrete
tables: `debug = OFF` renders nothing, `debug = ERROR` renders a
diagnostic naming `zzzfoo`. -/
theorem c8_unknown_command_witness :
    (cmdRender sampleFilters sampleAccents sampleUnicodes 0 (fun _ => "")
        ⟨fun i => i, 0, none⟩ ⟨"zzzfoo", [], "\\zzzfoo\x7b\x7d"⟩).1 = "" ∧
    (cmdRender sampleFilters sampleAccents sampleUnicodes 1 (fun _ => "")
        ⟨fun i => i, 0, none⟩ ⟨"zzzfoo", [], "\\zzzfoo\x7b\x7d"⟩).1 =
      "\n#Error! Unknown LaTeX command: zzzfoo.\n" := by
  have h := c8_unknown_command_behavior sampleFilters sampleAccents sampleUnicodes (fun _ => "")
    ⟨fun i => i, 0, none⟩ ⟨"zzzfoo", [], "\\zzzfoo\x7b\x7d"⟩
    (by decide) (by decide) (by decide) (by decide) (by decide) (by decide)
    (by decide) (by decide)
  exact ⟨h.1, h.2.1.trans (by decide)⟩

end Delatex
